import Mathlib

/-!
Verification development for the robun agent runtime.

JavaScript strings are embedded as `List Char`. Each definition mirrors one
function of the TypeScript source; comments name the source location.
-/

/-- Convert a Lean string literal to the `List Char` representation. -/
def str (s : String) : List Char := s.data

/-- The apostrophe character (U+0027), used in several literal messages. -/
def apos : Char := Char.ofNat 39

/-- JavaScript `String.prototype.includes`: substring containment test. -/
def jsIncludes : List Char → List Char → Bool
  | [], sub => sub.isPrefixOf []
  | c :: t, sub => sub.isPrefixOf (c :: t) || jsIncludes t sub

/-! ## Tool registry (src/unnamed/part_003, `ToolRegistry`)

A tool's `parameters.parse` either returns the validated arguments or throws a
`ZodError` carrying a list of issues (each with a path and a message); the
tool's `execute` either resolves to a result string or rejects.  A rejection
from `execute` is embedded as its error message: the tools of this repository
never throw `ZodError` values themselves (each built-in tool catches its own
errors and returns a string), so the `instanceof ZodError` test of the shared
catch block distinguishes exactly the parse failures. -/

/-- One issue of a thrown `ZodError`: `e.path` and `e.message`. -/
structure ZodIssue where
  path : List (List Char)
  message : List Char

/-- A registered tool: name, argument validator, and executor.  The argument
type is left abstract (`P`). -/
structure Tool (P : Type) where
  name : List Char
  validate : P → Except (List ZodIssue) P
  run : P → Except (List Char) (List Char)

/-- Registry contents: insertion-ordered key/value list mirroring a JS `Map`. -/
abbrev Registry (P : Type) := List (List Char × Tool P)

/-- JS `Map.set`: replace in place when the key is present, append otherwise. -/
def mapSet {P : Type} (m : Registry P) (k : List Char) (v : Tool P) : Registry P :=
  if m.any (fun p => p.1 == k) then
    m.map (fun p => if p.1 == k then (k, v) else p)
  else
    m ++ [(k, v)]

/-- `ToolRegistry.register` (part_003 line 28): `this.tools.set(tool.name, tool)`. -/
def ToolRegistry.register {P : Type} (m : Registry P) (t : Tool P) : Registry P :=
  mapSet m t.name t

/-- `ToolRegistry.get` (part_003 line 36). -/
def ToolRegistry.get {P : Type} (m : Registry P) (name : List Char) : Option (Tool P) :=
  (m.find? (fun p => p.1 == name)).map (fun p => p.2)

/-- `ToolRegistry.has` (part_003 line 40). -/
def ToolRegistry.has {P : Type} (m : Registry P) (name : List Char) : Bool :=
  m.any (fun p => p.1 == name)

/-- `ToolRegistry.size` (part_003 line 67). -/
def ToolRegistry.size {P : Type} (m : Registry P) : Nat := m.length

/-- The registry's key list, in insertion order (`toolNames`, part_003 line 63). -/
def ToolRegistry.toolNames {P : Type} (m : Registry P) : List (List Char) :=
  m.map (fun p => p.1)

/-- `e.path.join(".")` for one Zod issue. -/
def joinDot : List (List Char) → List Char
  | [] => []
  | [x] => x
  | x :: y :: rest => x ++ str "." ++ joinDot (y :: rest)

/-- `.join(", ")` over rendered issues. -/
def joinCommaSpace : List (List Char) → List Char
  | [] => []
  | [x] => x
  | x :: y :: rest => x ++ str ", " ++ joinCommaSpace (y :: rest)

/-- Rendering of one Zod issue: `` `${e.path.join(".")}: ${e.message}` ``. -/
def renderIssue (i : ZodIssue) : List Char := joinDot i.path ++ str ": " ++ i.message

/-- `ToolRegistry.execute` (part_003 lines 48-61). -/
def ToolRegistry.execute {P : Type} (m : Registry P) (name : List Char) (params : P) :
    List Char :=
  match ToolRegistry.get m name with
  | none => str "Error: Tool " ++ [apos] ++ name ++ [apos] ++ str " not found."
  | some tool =>
    match tool.validate params with
    | Except.error issues =>
        str "Invalid parameters: " ++ joinCommaSpace (issues.map renderIssue)
    | Except.ok validated =>
      match tool.run validated with
      | Except.error msg => str "Error executing " ++ name ++ str ": " ++ msg
      | Except.ok result => result

/-! ## Shell tool (src/src/tools/shell.ts, `ExecTool`)

The deny patterns (lines 4-13) are embedded as decidable matchers over
`List Char`.  The source tests every pattern against the lowercased command
(line 44), so the `/i` flags are immaterial; the matchers below are the exact
unanchored-regex semantics of each pattern applied to that lowercased string.
JavaScript regex classes are approximated by their ASCII content, which covers
every character the patterns can consume. -/

/-- JS regex `\w`: ASCII letters, digits, underscore. -/
def isWordCh (c : Char) : Bool := c.isAlphanum || c = '_'

/-- JS regex `\s` (and the class trimmed by `String.prototype.trim`):
whitespace characters.  ASCII whitespace plus NBSP and the BOM. -/
def isJsSpace (c : Char) : Bool :=
  c = ' ' || c = '\t' || c = '\n' || c = '\x0d' || c = '\x0b' || c = '\x0c' ||
  c = Char.ofNat 0x00A0 || c = Char.ofNat 0xFEFF

/-- JS `String.prototype.toLowerCase`, restricted to ASCII (the deny patterns
only inspect ASCII characters). -/
def jsLowerChar (c : Char) : Char :=
  if 'A' ≤ c ∧ c ≤ 'Z' then Char.ofNat (c.toNat + 32) else c

/-- Lowercase an embedded JS string. -/
def jsLower (s : List Char) : List Char := s.map jsLowerChar

/-- JS `String.prototype.trim`. -/
def jsTrim (s : List Char) : List Char :=
  ((s.dropWhile isJsSpace).reverse.dropWhile isJsSpace).reverse

/-- `\b` before a word character: start of input or a non-word predecessor. -/
def boundaryBefore : Option Char → Bool
  | none => true
  | some c => !(isWordCh c)

/-- `\b` after a word character: end of input or a non-word successor. -/
def nonWordNext : List Char → Bool
  | [] => true
  | c :: _ => !(isWordCh c)

/-- Consume `\s+` followed by nothing-spacey: at least one whitespace
character, then every following whitespace character (the continuation
always expects a non-whitespace character, so greediness is exact). -/
def ws1Then : List Char → Option (List Char)
  | c :: rest => if isJsSpace c then some (rest.dropWhile isJsSpace) else none
  | [] => none

/-- Consume an exact literal. -/
def expectStr (lit s : List Char) : Option (List Char) :=
  if lit.isPrefixOf s then some (s.drop lit.length) else none

/-- Tail of `/\brm\s+-[rf]{1,2}\b/` after the leading boundary:
`rm`, whitespace, `-`, one or two of `r`/`f`, trailing boundary. -/
def rmAt (prev : Option Char) (s : List Char) : Bool :=
  boundaryBefore prev &&
    (match expectStr (str "rm") s with
     | none => false
     | some s1 =>
       match ws1Then s1 with
       | none => false
       | some s2 =>
         match s2 with
         | '-' :: c1 :: rest =>
           (c1 = 'r' || c1 = 'f') &&
             (nonWordNext rest ||
               (match rest with
                | c2 :: rest2 => (c2 = 'r' || c2 = 'f') && nonWordNext rest2
                | [] => false))
         | _ => false)

/-- `/\bdel\s+\/[fq]\b/i` on the lowercased command. -/
def delAt (prev : Option Char) (s : List Char) : Bool :=
  boundaryBefore prev &&
    (match expectStr (str "del") s with
     | none => false
     | some s1 =>
       match ws1Then s1 with
       | none => false
       | some s2 =>
         match s2 with
         | '/' :: c1 :: rest => (c1 = 'f' || c1 = 'q') && nonWordNext rest
         | _ => false)

/-- `/\brmdir\s+\/s\b/i` on the lowercased command. -/
def rmdirAt (prev : Option Char) (s : List Char) : Bool :=
  boundaryBefore prev &&
    (match expectStr (str "rmdir") s with
     | none => false
     | some s1 =>
       match ws1Then s1 with
       | none => false
       | some s2 =>
         match s2 with
         | '/' :: 's' :: rest => nonWordNext rest
         | _ => false)

/-- `\b(w₁|w₂|…)\b` for a list of word alternatives. -/
def wordAltAt (words : List (List Char)) (prev : Option Char) (s : List Char) : Bool :=
  boundaryBefore prev &&
    words.any (fun w => w.isPrefixOf s && nonWordNext (s.drop w.length))

/-- `/\b(format|mkfs|diskpart)\b/i` on the lowercased command. -/
def formatAt (prev : Option Char) (s : List Char) : Bool :=
  wordAltAt [str "format", str "mkfs", str "diskpart"] prev s

/-- `/\b(shutdown|reboot|poweroff)\b/` on the lowercased command. -/
def shutdownAt (prev : Option Char) (s : List Char) : Bool :=
  wordAltAt [str "shutdown", str "reboot", str "poweroff"] prev s

/-- `/\bdd\s+if=/` on the lowercased command. -/
def ddAt (prev : Option Char) (s : List Char) : Bool :=
  boundaryBefore prev &&
    (match expectStr (str "dd") s with
     | none => false
     | some s1 =>
       match ws1Then s1 with
       | none => false
       | some s2 => (str "if=").isPrefixOf s2)

/-- `/>\s*\/dev\/sd/` on the lowercased command. -/
def devAt (_prev : Option Char) (s : List Char) : Bool :=
  match s with
  | '>' :: rest => (str "/dev/sd").isPrefixOf (rest.dropWhile isJsSpace)
  | _ => false

/-- JS regex `.`: any character other than a line terminator. -/
def isDotCh (c : Char) : Bool :=
  !(c = '\n' || c = '\x0d' || c = Char.ofNat 0x2028 || c = Char.ofNat 0x2029)

/-- After `:\(\)\s*\{` is consumed: search for `.*};\s*:`. -/
def forkTail : List Char → Bool
  | [] => false
  | c :: rest =>
    (match c, rest with
     | '}', ';' :: r2 => (r2.dropWhile isJsSpace).head? = some ':'
     | _, _ => false) ||
    (isDotCh c && forkTail rest)

/-- `/:\(\)\s*\{.*\};\s*:/` — the classic fork bomb. -/
def forkAt (_prev : Option Char) (s : List Char) : Bool :=
  match expectStr (str ":()") s with
  | none => false
  | some s1 =>
    match s1.dropWhile isJsSpace with
    | '{' :: rest => forkTail rest
    | _ => false

/-- Unanchored regex test: try the position matcher at every position. -/
def testPat (p : Option Char → List Char → Bool) : Option Char → List Char → Bool
  | prev, s =>
    p prev s ||
      (match s with
       | [] => false
       | c :: rest => testPat p (some c) rest)

/-- `DEFAULT_DENY_PATTERNS` (shell.ts lines 4-13), tested in order against the
lowercased command exactly as `ExecTool.guardCommand` does. -/
def anyDenyPattern (lower : List Char) : Bool :=
  testPat rmAt none lower || testPat delAt none lower || testPat rmdirAt none lower ||
  testPat formatAt none lower || testPat ddAt none lower || testPat devAt none lower ||
  testPat shutdownAt none lower || testPat forkAt none lower

/-- `ExecTool.guardCommand` (shell.ts lines 43-58).  Returns the block message,
or `none` when the command may run.  The deny patterns inspect the lowercased
command; the path-traversal test inspects the original command. -/
def ExecTool.guardCommand (restrictToWorkspace : Bool) (command : List Char) :
    Option (List Char) :=
  if anyDenyPattern (jsLower command) then
    some (str "Error: Command blocked by safety guard (dangerous pattern detected)")
  else if restrictToWorkspace &&
      (jsIncludes command (str "../") || jsIncludes command (str "..\\")) then
    some (str "Error: Command blocked by safety guard (path traversal detected)")
  else
    none

/-- Result of one shell invocation: captured streams and exit code. -/
structure ShellResult where
  stdout : List Char
  stderr : List Char
  exitCode : Int

/-- Decimal rendering of an integer, as JS template interpolation produces. -/
def intToStr (i : Int) : List Char := (toString i).data

/-- Decimal rendering of a natural number. -/
def natToStr (n : Nat) : List Char := (toString n).data

/-- `ExecTool.execute` line 88: the output after the stdout append. -/
def rawO1 (stdout : List Char) : List Char :=
  if jsTrim stdout ≠ [] then stdout else []

/-- `ExecTool.execute` line 89: the output after the stderr append, joined
with the `STDERR:` marker (and a newline separator when stdout contributed). -/
def rawO2 (stdout stderr : List Char) : List Char :=
  if jsTrim stderr ≠ [] then
    rawO1 stdout ++ (if rawO1 stdout ≠ [] then str "\n" else []) ++
      str "STDERR:\n" ++ stderr
  else rawO1 stdout

/-- `ExecTool.execute` lines 87-90: assemble stdout and stderr into one
output string, with the `(no output, exit code N)` fallback. -/
def rawOutput (stdout stderr : List Char) (exitCode : Int) : List Char :=
  if jsTrim (rawO2 stdout stderr) = [] then
    str "(no output, exit code " ++ intToStr exitCode ++ str ")"
  else rawO2 stdout stderr

/-- `ExecTool.execute` lines 92-94: append `Exit code: N` on a non-zero exit
code, unless the output already carries the `STDERR:` marker. -/
def withExitCode (output : List Char) (exitCode : Int) : List Char :=
  if exitCode ≠ 0 ∧ !(jsIncludes output (str "STDERR:")) then
    output ++ str "\nExit code: " ++ intToStr exitCode
  else output

/-- `ExecTool.execute` lines 97-99: truncate at 10,000 characters. -/
def truncate10k (output : List Char) : List Char :=
  if 10000 < output.length then output.take 10000 ++ str "\n... (truncated)" else output

/-- Output post-processing of `ExecTool.execute` (shell.ts lines 87-101). -/
def processShellOutput (stdout stderr : List Char) (exitCode : Int) : List Char :=
  truncate10k (withExitCode (rawOutput stdout stderr exitCode) exitCode)

/-- `ExecTool.execute` (shell.ts lines 60-105).  The spawned shell is a
parameter; the returned flag records whether it was invoked. -/
def ExecTool.execute (restrictToWorkspace : Bool) (shell : List Char → ShellResult)
    (command : List Char) : List Char × Bool :=
  match ExecTool.guardCommand restrictToWorkspace command with
  | some blocked => (blocked, false)
  | none =>
    let r := shell command
    (processShellOutput r.stdout r.stderr r.exitCode, true)

/-! ## Filesystem tools (src/src/tools/filesystem.ts)

`edit_file` is embedded as a pure function from the current file content (an
`Option`, `none` when the file does not exist) to the new content and the
result message.  `content.split(old).length - 1` counts the non-overlapping
left-to-right occurrences when `old` is non-empty; JS `"s".split("")` yields
one element per UTF-16 unit, giving `content.length - 1`. -/

/-- Fuel-driven scanner for the non-overlapping occurrence count; the fuel
bounds the scan length so the recursion is structural (it never runs out when
seeded with the content length). -/
def countOccFuel (old : List Char) : Nat → List Char → Nat
  | 0, _ => 0
  | _ + 1, [] => 0
  | fuel + 1, c :: rest =>
    if old.isPrefixOf (c :: rest) then
      1 + countOccFuel old fuel (rest.drop (old.length - 1))
    else countOccFuel old fuel rest

/-- Non-overlapping left-to-right occurrence count of `old` in `content`,
matching `content.split(old).length - 1` for non-empty `old`. -/
def countOcc (old : List Char) (content : List Char) : Nat :=
  countOccFuel old content.length content

/-- `content.split(old_text).length - 1` (filesystem.ts line 95). -/
def jsSplitCount (content old : List Char) : Nat :=
  if old = [] then content.length - 1 else countOcc old content

/-- JS `String.prototype.replace` with a string pattern: replace the first
occurrence; with the empty pattern, insert at the start. -/
def jsReplaceFirst (content old new : List Char) : List Char :=
  match content with
  | [] => if old = [] then new else []
  | c :: rest =>
    if old.isPrefixOf (c :: rest) then new ++ (c :: rest).drop old.length
    else c :: jsReplaceFirst rest old new

/-- `EditFileTool.execute` (filesystem.ts lines 81-106), as a pure step on the
file content.  Returns the content after the call and the result string. -/
def EditFileTool.execute (path : List Char) (file : Option (List Char))
    (old new : List Char) : Option (List Char) × List Char :=
  match file with
  | none => (none, str "Error: File not found: " ++ path)
  | some content =>
    if !(jsIncludes content old) then
      (some content,
       str "Error: old_text not found in file. Make sure it matches exactly.")
    else
      let count := jsSplitCount content old
      if count > 1 then
        (some content,
         str "Warning: old_text appears " ++ natToStr count ++
           str " times. Please provide more context to make it unique.")
      else
        (some (jsReplaceFirst content old new), str "Successfully edited " ++ path)

/-- A filesystem snapshot for `write_file`: the set of existing directories and
the file map.  Paths are segment lists of an already-resolved absolute path
(`resolve` is modelled as the identity on resolved paths). -/
structure FileSystem where
  dirs : List (List (List Char))
  files : List (List (List Char) × List Char)

/-- `mkdirSync(dir, { recursive: true })`: the directory and all its
ancestors (every initial segment of the path) come to exist. -/
def mkdirRecursive (fs : FileSystem) (d : List (List Char)) : FileSystem :=
  { fs with dirs := d.inits ++ fs.dirs }

/-- Join path segments with `/` for display in the result message. -/
def joinSlash : List (List Char) → List Char
  | [] => []
  | [x] => x
  | x :: y :: rest => x ++ str "/" ++ joinSlash (y :: rest)

/-- JS `String.prototype.length`: the number of UTF-16 code units. -/
def jsStrLength (s : List Char) : Nat :=
  (s.map (fun c => if c.toNat < 0x10000 then 1 else 2)).sum

/-- Number of bytes of the UTF-8 encoding actually written by
`writeFileSync(path, content, "utf-8")`. -/
def utf8ByteLength (s : List Char) : Nat := (s.map Char.utf8Size).sum

/-- `WriteFileTool.execute` (filesystem.ts lines 57-66): create the parent
directories of the target, write the file, and report
`Successfully wrote ${content.length} bytes to ${path}`. -/
def WriteFileTool.execute (fs : FileSystem) (path : List (List Char))
    (content : List Char) : FileSystem × List Char :=
  let fs1 := mkdirRecursive fs path.dropLast
  let fs2 := { fs1 with
    files := (path, content) :: fs1.files.filter (fun pr => !(pr.1 == path)) }
  (fs2, str "Successfully wrote " ++ natToStr (jsStrLength content) ++
    str " bytes to " ++ joinSlash path)

/-! ## Cron service (src/src/cron/service.ts, src/unnamed/part_008)

Epoch instants are nonnegative milliseconds, embedded as `Nat`; nullable
numbers of the Zod schemas become `Option Nat`.  The external `cron-parser`
library is abstracted as a parameter `cronNext expr tz now`, returning the
next matching instant or `none` when parsing (or `.next()`) throws. -/

/-- The schedule tag: `"at" | "every" | "cron"`. -/
inductive ScheduleKind
  | atK
  | everyK
  | cronK
deriving DecidableEq

/-- `CronScheduleSchema` (part_008 lines 3-9). -/
structure CronSchedule where
  kind : ScheduleKind
  atMs : Option Nat
  everyMs : Option Nat
  expr : Option (List Char)
  tz : Option (List Char)
deriving DecidableEq

/-- `lastStatus` values (part_008 line 24). -/
inductive JobStatus
  | ok
  | error
  | skipped
deriving DecidableEq

/-- `CronJobStateSchema` (part_008 lines 21-26). -/
structure CronJobState where
  nextRunAtMs : Option Nat
  lastRunAtMs : Option Nat
  lastStatus : Option JobStatus
  lastError : Option (List Char)
deriving DecidableEq

/-- `CronPayloadSchema` (part_008 lines 12-18); opaque to the scheduler.  The
`to` field is embedded as `toAddr` (`to` is reserved in Lean). -/
structure CronPayload where
  kind : List Char
  message : List Char
  deliver : Bool
  channel : Option (List Char)
  toAddr : Option (List Char)
deriving DecidableEq

/-- `CronJobSchema` (part_008 lines 29-39). -/
structure CronJob where
  id : List Char
  name : List Char
  enabled : Bool
  schedule : CronSchedule
  payload : CronPayload
  state : CronJobState
  createdAtMs : Nat
  updatedAtMs : Nat
  deleteAfterRun : Bool
deriving DecidableEq

/-- `computeNextRun` (service.ts lines 12-32).  JS truthiness: a nullable
number is falsy when absent or zero; a nullable string is falsy when absent
or empty. -/
def computeNextRun (s : CronSchedule) (now : Nat)
    (cronNext : List Char → Option (List Char) → Nat → Option Nat) : Option Nat :=
  match s.kind with
  | ScheduleKind.atK =>
    match s.atMs with
    | some a => if a ≠ 0 ∧ now < a then some a else none
    | none => none
  | ScheduleKind.everyK =>
    match s.everyMs with
    | some e => if e ≠ 0 ∧ 0 < e then some (now + e) else none
    | none => none
  | ScheduleKind.cronK =>
    match s.expr with
    | some ex => if ex ≠ [] then cronNext ex s.tz now else none
    | none => none

/-- The per-job mutation of `CronService.executeJob` (service.ts lines
168-199).  `outcome` is the result of the `onJob` callback (`Except.error`
when it threw); `startMs` is the time taken before the callback, `endMs` the
time of the post-run bookkeeping. -/
def executeJobUpdate (j : CronJob) (outcome : Except (List Char) Unit)
    (startMs endMs : Nat)
    (cronNext : List Char → Option (List Char) → Nat → Option Nat) : CronJob :=
  let st1 :=
    match outcome with
    | Except.ok _ => { j.state with lastStatus := some JobStatus.ok, lastError := none }
    | Except.error e =>
        { j.state with lastStatus := some JobStatus.error, lastError := some e }
  let j2 := { j with state := { st1 with lastRunAtMs := some startMs },
                     updatedAtMs := endMs }
  match j.schedule.kind with
  | ScheduleKind.atK =>
    if j.deleteAfterRun then j2
    else { j2 with enabled := false, state := { j2.state with nextRunAtMs := none } }
  | _ => { j2 with state :=
      { j2.state with nextRunAtMs := computeNextRun j.schedule endMs cronNext } }

/-- The store-level effect of `CronService.executeJob`: a one-shot `at` job
with `deleteAfterRun` is filtered out of the store (line 191); otherwise the
executed job (identified by its unique id) is updated in place. -/
def executeJobStore (store : List CronJob) (j : CronJob)
    (outcome : Except (List Char) Unit) (startMs endMs : Nat)
    (cronNext : List Char → Option (List Char) → Nat → Option Nat) : List CronJob :=
  if j.schedule.kind = ScheduleKind.atK ∧ j.deleteAfterRun then
    store.filter (fun x => !(x.id == j.id))
  else
    store.map (fun x =>
      if x.id == j.id then executeJobUpdate j outcome startMs endMs cronNext else x)

/-- Comparison used by `listJobs` (service.ts line 206):
`(a.state.nextRunAtMs ?? Infinity) - (b.state.nextRunAtMs ?? Infinity)`. -/
def nextRunKeyLe (a b : CronJob) : Bool :=
  match a.state.nextRunAtMs, b.state.nextRunAtMs with
  | none, none => true
  | none, some _ => false
  | some _, none => true
  | some x, some y => x ≤ y

/-- Insertion step of the stable sort modelling `Array.prototype.sort`. -/
def insertByKey (x : CronJob) : List CronJob → List CronJob
  | [] => [x]
  | y :: rest => if nextRunKeyLe x y then x :: y :: rest else y :: insertByKey x rest

/-- Stable sort by ascending `nextRunAtMs`, nulls last. -/
def sortByNextRun : List CronJob → List CronJob
  | [] => []
  | x :: rest => insertByKey x (sortByNextRun rest)

/-- `CronService.listJobs` (service.ts lines 203-207). -/
def CronService.listJobs (store : List CronJob) (includeDisabled : Bool) :
    List CronJob :=
  sortByNextRun (if includeDisabled then store else store.filter (fun j => j.enabled))

/-! ## Heartbeat service (src/unnamed/part_000) -/

/-- The checkbox test `/^[-*] \[[ x]\]/` (part_000 line 24), anchored at the
start of the trimmed line. -/
def checkboxStart : List Char → Bool
  | c1 :: c2 :: c3 :: c4 :: c5 :: _ =>
    (c1 = '-' || c1 = '*') && c2 = ' ' && c3 = '[' && (c4 = ' ' || c4 = 'x') &&
      c5 = ']'
  | _ => false

/-- JS `content.split("\n")` specialised to one separator character. -/
def splitOnChar (sep : Char) : List Char → List (List Char)
  | [] => [[]]
  | c :: rest =>
    match splitOnChar sep rest with
    | [] => [[c]]
    | h :: t => if c = sep then [] :: h :: t else (c :: h) :: t

/-- The body of the per-line loop of `isHeartbeatEmpty` (part_000 lines
18-26): `true` when the line is skipped (`continue`), `false` when the loop
returns `false` on it. -/
def lineVerdict (line : List Char) : Bool :=
  let t := jsTrim line
  if t = [] then true
  else if ['#'].isPrefixOf t then true
  else if (str "<!--").isPrefixOf t then true
  else if checkboxStart t then false
  else if 0 < t.length then false
  else true

/-- `isHeartbeatEmpty` (part_000 lines 15-29).  `none` models a missing (or
unreadable) file; the empty string is falsy and also reports empty. -/
def isHeartbeatEmpty (content : Option (List Char)) : Bool :=
  match content with
  | none => true
  | some c => if c = [] then true else (splitOnChar '\n' c).all lineVerdict

/-- `HeartbeatService.tick` (part_000 lines 78-107), reduced to its observable
decision: whether the `onHeartbeat` handler is invoked, given the heartbeat
file content and whether a handler is installed. -/
def HeartbeatService.tick (content : Option (List Char)) (hasHandler : Bool) : Bool :=
  if isHeartbeatEmpty content then false else hasHandler

/-! ## Sub-agent manager (src/src/agent/subagent.ts)

The LLM provider is a function from the current message list to a response;
tool execution is a function from tool name and serialized arguments to the
result string.  The transcript entries distinguish the four roles the loop
produces. -/

/-- One tool call of an LLM response (arguments kept serialized). -/
structure SubToolCall where
  id : List Char
  name : List Char
  args : List Char
deriving DecidableEq

/-- A transcript message of the sub-agent loop. -/
inductive SubMsg
  | system (content : List Char)
  | user (content : List Char)
  | assistant (content : List Char) (toolCalls : List SubToolCall)
  | tool (toolCallId name content : List Char)
deriving DecidableEq

/-- `LLMResponse` restricted to the fields the sub-agent loop reads. -/
structure LLMResponse where
  content : Option (List Char)
  toolCalls : List SubToolCall

/-- `hasToolCalls` (providers/base.ts lines 25-27). -/
def hasToolCalls (r : LLMResponse) : Bool := r.toolCalls.length > 0

/-- The messages appended by one tool-call turn (subagent.ts lines 116-141):
one assistant message carrying the tool calls (`content ?? ""`), then one
tool message per call, in order, each with the matching `tool_call_id`. -/
def turnMessages (r : LLMResponse)
    (execTool : List Char → List Char → List Char) : List SubMsg :=
  SubMsg.assistant (r.content.getD []) r.toolCalls ::
    r.toolCalls.map (fun tc => SubMsg.tool tc.id tc.name (execTool tc.name tc.args))

/-- The `while (iteration < maxIterations)` loop of `runSubagent`
(subagent.ts lines 103-146).  Returns the final message list, the final
content (`none` when the ceiling was hit, or when the last response had null
content), and the number of LLM calls made. -/
def runSubagentLoop (provider : List SubMsg → LLMResponse)
    (execTool : List Char → List Char → List Char) :
    Nat → List SubMsg → Nat → List SubMsg × Option (List Char) × Nat
  | 0, msgs, calls => (msgs, none, calls)
  | fuel + 1, msgs, calls =>
    let r := provider msgs
    if hasToolCalls r then
      runSubagentLoop provider execTool fuel (msgs ++ turnMessages r execTool)
        (calls + 1)
    else (msgs, r.content, calls + 1)

/-- `SubagentManager.runSubagent` (subagent.ts lines 68-159): seed with the
system prompt and the task, run the loop with `maxIterations = 15`, and fall
back to the fixed string when no final content was produced. -/
def SubagentManager.runSubagent (provider : List SubMsg → LLMResponse)
    (execTool : List Char → List Char → List Char)
    (systemPrompt task : List Char) : List SubMsg × List Char × Nat :=
  let out := runSubagentLoop provider execTool 15
    [SubMsg.system systemPrompt, SubMsg.user task] 0
  (out.1, out.2.1.getD (str "Task completed but no final response was generated."),
    out.2.2)

/-! ## Concrete fixtures used by witnesses and counterexamples -/

/-- A validation issue with path `["x"]` and message `Required`. -/
def issueX : ZodIssue := ⟨[str "x"], str "Required"⟩

/-- A tool that rejects `false` arguments and otherwise returns `done`. -/
def toolA : Tool Bool :=
  ⟨str "a", fun p => if p then Except.ok p else Except.error [issueX],
   fun _ => Except.ok (str "done")⟩

/-- A tool whose execution always throws `boom`. -/
def toolB : Tool Bool :=
  ⟨str "b", fun p => Except.ok p, fun _ => Except.error (str "boom")⟩

/-- A second tool named `a`, to exercise duplicate registration. -/
def toolA2 : Tool Bool :=
  ⟨str "a", fun p => Except.ok p, fun _ => Except.ok (str "done2")⟩

/-- Registry holding `toolA` and `toolB`. -/
def exReg : Registry Bool := ToolRegistry.register (ToolRegistry.register [] toolA) toolB

/-- `exReg` after registering `toolA2` under the already-present name `a`. -/
def exReg2 : Registry Bool := ToolRegistry.register exReg toolA2

/-- A shell stub (never reached in the blocked cases). -/
def exShell (_cmd : List Char) : ShellResult := ⟨[], [], 0⟩

/-- U+00E9, one UTF-16 code unit but two UTF-8 bytes. -/
def eAcute : Char := Char.ofNat 0xE9

/-- A cron-parser stub. -/
def exCronNext (_e : List Char) (_tz : Option (List Char)) (_n : Nat) : Option Nat :=
  none

/-- A one-shot `at` schedule. -/
def exSchedAt : CronSchedule := ⟨ScheduleKind.atK, some 100, none, none, none⟩

/-- A minimal payload. -/
def exPayload : CronPayload := ⟨str "agent_turn", str "hello", false, none, none⟩

/-- An `at` job with `deleteAfterRun = true`. -/
def exJobDel : CronJob :=
  ⟨str "j1", str "one", true, exSchedAt, exPayload, ⟨some 100, none, none, none⟩,
   0, 0, true⟩

/-- An `at` job with `deleteAfterRun = false`. -/
def exJobKeep : CronJob :=
  ⟨str "j2", str "two", true, exSchedAt, exPayload, ⟨some 100, none, none, none⟩,
   0, 0, false⟩

/-- A two-job store. -/
def exStore : List CronJob := [exJobDel, exJobKeep]

/-- The reflection nudge of the main agent loop (mcp.ts line 731). -/
def reflectText : List Char := str "Reflect on the results and decide next steps."

/-- A tool call issued by the stub provider. -/
def exToolCall : SubToolCall := ⟨str "t1", str "read_file", []⟩

/-- Stub provider: one tool call on the seed transcript, then a final answer. -/
def exProvider (msgs : List SubMsg) : LLMResponse :=
  if msgs.length == 2 then ⟨none, [exToolCall]⟩ else ⟨some (str "done"), []⟩

/-- Stub tool executor. -/
def exExec (_name _args : List Char) : List Char := str "Hi"

/-- Transcript entries the sub-agent loop may append after the seed. -/
def assistantOrToolMsg : SubMsg → Bool
  | SubMsg.assistant _ _ => true
  | SubMsg.tool _ _ _ => true
  | _ => false

/-! ## Helper lemmas -/

/-- A list starts every one of its extensions. -/
theorem isPrefixOf_append_self (a b : List Char) : a.isPrefixOf (a ++ b) = true := by
  rw [ List.isPrefixOf_iff_prefix]
  exact ⟨b, rfl⟩

/-- One-step unfolding of `jsIncludes`, uniform in the content shape. -/
theorem jsIncludes_eq (content sub : List Char) :
    jsIncludes content sub =
      (sub.isPrefixOf content ||
        (match content with | [] => false | _ :: t => jsIncludes t sub)) := by
  cases content with
  | nil => simp [jsIncludes]
  | cons c t => rfl

/-- `jsIncludes` holds for every explicitly decomposed occurrence. -/
theorem jsIncludes_intro (a sub b : List Char) :
    jsIncludes (a ++ (sub ++ b)) sub = true := by
  induction a with
  | nil =>
    rw [List.nil_append, jsIncludes_eq]
    simp [isPrefixOf_append_self]
  | cons c t ih =>
    rw [List.cons_append, jsIncludes_eq]
    simp [ih]

/-- `jsIncludes` is exactly substring occurrence. -/
theorem jsIncludes_iff_exists (s sub : List Char) :
    jsIncludes s sub = true ↔ ∃ a b, s = a ++ (sub ++ b) := by
  constructor
  · induction s with
    | nil =>
      intro h
      rw [jsIncludes_eq] at h
      simp [ List.isPrefixOf_iff_prefix] at h
      exact ⟨[], [], by simp [h]⟩
    | cons c tl ih =>
      intro h
      rw [jsIncludes_eq] at h
      rcases Bool.or_eq_true_iff.mp h with h1 | h2
      · rw [ List.isPrefixOf_iff_prefix] at h1
        obtain ⟨t, ht⟩ := h1
        exact ⟨[], t, by simp [← ht]⟩
      · obtain ⟨a, b, hab⟩ := ih h2
        exact ⟨c :: a, b, by simp [hab]⟩
  · rintro ⟨a, b, rfl⟩
    exact jsIncludes_intro a sub b

/-- The trimmed string is empty only when every character is whitespace. -/
theorem jsTrim_eq_nil_imp (s : List Char) (h : jsTrim s = []) :
    ∀ c ∈ s, isJsSpace c = true := by
  unfold jsTrim at h
  rw [List.reverse_eq_nil_iff] at h
  have h2 : ∀ c ∈ (s.dropWhile isJsSpace).reverse, isJsSpace c = true :=
    List.dropWhile_eq_nil_iff.mp h
  have h3 : ∀ c ∈ s.dropWhile isJsSpace, isJsSpace c = true := by
    intro c hc
    exact h2 c (List.mem_reverse.mpr hc)
  intro c hc
  have h4 := List.takeWhile_append_dropWhile isJsSpace s
  rw [← h4] at hc
  rcases List.mem_append.mp hc with h5 | h5
  · exact List.mem_takeWhile_imp h5
  · exact h3 c h5

/-- The trimmed string is non-empty as soon as one character is not
whitespace. -/
theorem jsTrim_ne_nil (s : List Char) (c : Char) (hc : c ∈ s)
    (hcs : isJsSpace c = false) : jsTrim s ≠ [] := by
  intro h
  have := jsTrim_eq_nil_imp s h c hc
  simp [hcs] at this

/-- Fuel-level form: a positive count is exactly containment. -/
theorem countOccFuel_pos_iff (old : List Char) (h : old ≠ []) :
    ∀ fuel content, content.length ≤ fuel →
      (0 < countOccFuel old fuel content ↔ jsIncludes content old = true) := by
  intro fuel
  induction fuel with
  | zero =>
    intro content hle
    have hc : content = [] := List.length_eq_zero.mp (Nat.le_zero.mp hle)
    subst hc
    rw [jsIncludes]
    cases old with
    | nil => exact absurd rfl h
    | cons c t => simp [countOccFuel, List.isPrefixOf]
  | succ f ih =>
    intro content hle
    cases content with
    | nil =>
      rw [jsIncludes]
      cases old with
      | nil => exact absurd rfl h
      | cons c t => simp [countOccFuel, List.isPrefixOf]
    | cons c rest =>
      rw [countOccFuel, jsIncludes]
      by_cases hp : old.isPrefixOf (c :: rest) = true
      · simp [hp]
      · simp only [Bool.not_eq_true] at hp
        have hle2 : rest.length ≤ f := by
          simp at hle
          omega
        simp [hp, ih rest hle2]

/-- For a non-empty pattern, a positive split count is exactly containment. -/
theorem countOcc_pos_iff (old : List Char) (h : old ≠ []) (content : List Char) :
    0 < countOcc old content ↔ jsIncludes content old = true :=
  countOccFuel_pos_iff old h content.length content (Nat.le_refl _)

/-- After an in-place replace, lookup of the replaced key finds the new value. -/
theorem find?_map_of_any {P : Type} (m : Registry P) (k : List Char) (v : Tool P)
    (h : m.any (fun p => p.1 == k) = true) :
    (m.map (fun p => if p.1 == k then (k, v) else p)).find? (fun p => p.1 == k) =
      some (k, v) := by
  induction m with
  | nil => simp at h
  | cons p m' ih =>
    by_cases hp : (p.1 == k) = true
    · simp only [List.map_cons, hp, if_pos]
      exact List.find?_cons_of_pos _ (beq_self_eq_true k)
    · simp only [Bool.not_eq_true] at hp
      simp only [List.map_cons, hp, Bool.false_eq_true, if_neg, not_false_iff]
      rw [List.find?_cons_of_neg _ (by simp [hp])]
      apply ih
      simp only [List.any_cons, hp, Bool.false_or] at h
      exact h

/-- An in-place replace of key `k` does not affect lookups of other keys. -/
theorem find?_map_other {P : Type} (m : Registry P) (k : List Char) (v : Tool P)
    (name : List Char) (hne : name ≠ k) :
    (m.map (fun p => if p.1 == k then (k, v) else p)).find? (fun p => p.1 == name) =
      m.find? (fun p => p.1 == name) := by
  induction m with
  | nil => rfl
  | cons p m' ih =>
    rw [List.map_cons]
    by_cases hp : (p.1 == k) = true
    · have hpk : p.1 = k := eq_of_beq hp
      have h1 : ((k : List Char) == name) = false := by
        rw [beq_eq_false_iff_ne]
        exact fun hh => hne hh.symm
      rw [if_pos hp, List.find?_cons_of_neg _ (by simp [h1]),
          List.find?_cons_of_neg _ (by simp [hpk, h1]), ih]
    · rw [if_neg hp, List.find?_cons, List.find?_cons]
      cases hq : p.1 == name with
      | true => simp only [hq]
      | false => simp only [hq]; exact ih

/-- When the key is absent, nothing in the original list matches it. -/
theorem find?_eq_none_of_any_false {P : Type} (m : Registry P) (k : List Char)
    (h : m.any (fun p => p.1 == k) = false) :
    m.find? (fun p => p.1 == k) = none := by
  rw [List.find?_eq_none]
  intro x hx
  have := List.any_eq_false.mp h x hx
  simpa using this

/-- Replacing a present key in place leaves the key sequence unchanged. -/
theorem toolNames_map_replace {P : Type} (m : Registry P) (k : List Char) (v : Tool P) :
    ToolRegistry.toolNames (m.map (fun p => if p.1 == k then (k, v) else p)) =
      ToolRegistry.toolNames m := by
  unfold ToolRegistry.toolNames
  rw [List.map_map]
  apply List.map_congr_left
  intro p _
  by_cases hp : (p.1 == k) = true
  · simp [Function.comp, hp, eq_of_beq hp]
  · simp [Function.comp, hp]

/-- Membership through one sorted insertion. -/
theorem mem_insertByKey (x y : CronJob) (l : List CronJob) :
    x ∈ insertByKey y l ↔ x = y ∨ x ∈ l := by
  induction l with
  | nil => simp [insertByKey]
  | cons z rest ih =>
    rw [insertByKey]
    by_cases h : nextRunKeyLe y z = true
    · simp [h]
    · simp [h, ih]
      tauto

/-- The `listJobs` sort preserves membership. -/
theorem mem_sortByNextRun (x : CronJob) (l : List CronJob) :
    x ∈ sortByNextRun l ↔ x ∈ l := by
  induction l with
  | nil => simp [sortByNextRun]
  | cons z rest ih =>
    rw [sortByNextRun, mem_insertByKey]
    simp [ih]

/-! ## Claim theorems -/

/-- C1.  `ToolRegistry.execute` is total and collapses every outcome into one
result string: unknown name yields the `not found` message, a schema-validation
failure yields `Invalid parameters: ` with each failing path and message, a
throwing execution yields `Error executing {name}: {message}`, and otherwise
the tool's result string is returned unchanged. -/
theorem toolRegistry_execute_contract {P : Type} (m : Registry P) (name : List Char)
    (params : P) :
    (ToolRegistry.get m name = none →
      ToolRegistry.execute m name params =
        str "Error: Tool " ++ [apos] ++ name ++ [apos] ++ str " not found.")
    ∧ ∀ tool, ToolRegistry.get m name = some tool →
        (∀ issues, tool.validate params = Except.error issues →
          ToolRegistry.execute m name params =
            str "Invalid parameters: " ++ joinCommaSpace (issues.map renderIssue))
        ∧ (∀ v msg, tool.validate params = Except.ok v →
            tool.run v = Except.error msg →
            ToolRegistry.execute m name params =
              str "Error executing " ++ name ++ str ": " ++ msg)
        ∧ (∀ v res, tool.validate params = Except.ok v →
            tool.run v = Except.ok res →
            ToolRegistry.execute m name params = res) := by
  constructor
  · intro h
    simp only [ToolRegistry.execute, h]
  · intro tool htool
    refine ⟨?_, ?_, ?_⟩
    · intro issues hval
      simp only [ToolRegistry.execute, htool, hval]
    · intro v msg hval hrun
      simp only [ToolRegistry.execute, htool, hval, hrun]
    · intro v res hval hrun
      simp only [ToolRegistry.execute, htool, hval, hrun]

/-- Witness for C1: all four outcomes on the concrete registry `exReg`. -/
theorem toolRegistry_execute_contract_witness :
    ToolRegistry.execute exReg (str "zzz") true =
      str "Error: Tool " ++ [apos] ++ str "zzz" ++ [apos] ++ str " not found."
    ∧ ToolRegistry.execute exReg (str "a") false = str "Invalid parameters: x: Required"
    ∧ ToolRegistry.execute exReg (str "b") true = str "Error executing b: boom"
    ∧ ToolRegistry.execute exReg (str "a") true = str "done" := by
  refine ⟨(toolRegistry_execute_contract exReg (str "zzz") true).1 rfl, ?_, ?_, ?_⟩
  · exact ((toolRegistry_execute_contract exReg (str "a") false).2 toolA rfl).1
      [issueX] rfl
  · exact ((toolRegistry_execute_contract exReg (str "b") true).2 toolB rfl).2.1
      true (str "boom") rfl rfl
  · exact ((toolRegistry_execute_contract exReg (str "a") true).2 toolA rfl).2.2
      true (str "done") rfl rfl

/-- C10.  `ToolRegistry.register` never fails and is last-wins: a duplicate
name silently replaces the previous tool, `get` returns the most recent
registration, the key sequence stays duplicate-free, and the size does not
grow on a duplicate registration (and grows by one otherwise). -/
theorem toolRegistry_register_last_wins {P : Type} (m : Registry P) (t : Tool P) :
    ToolRegistry.get (ToolRegistry.register m t) t.name = some t
    ∧ (∀ name, name ≠ t.name →
        ToolRegistry.get (ToolRegistry.register m t) name = ToolRegistry.get m name)
    ∧ ((ToolRegistry.toolNames m).Nodup →
        (ToolRegistry.toolNames (ToolRegistry.register m t)).Nodup)
    ∧ (ToolRegistry.has m t.name = true →
        ToolRegistry.size (ToolRegistry.register m t) = ToolRegistry.size m)
    ∧ (ToolRegistry.has m t.name = false →
        ToolRegistry.size (ToolRegistry.register m t) = ToolRegistry.size m + 1) := by
  unfold ToolRegistry.register mapSet
  by_cases hany : m.any (fun p => p.1 == t.name) = true
  · rw [if_pos hany]
    refine ⟨?_, ?_, ?_, ?_, ?_⟩
    · unfold ToolRegistry.get
      rw [find?_map_of_any m t.name t hany]
      rfl
    · intro name hne
      unfold ToolRegistry.get
      rw [find?_map_other m t.name t name hne]
    · intro hnd
      rwa [toolNames_map_replace]
    · intro _
      simp [ToolRegistry.size]
    · intro hfalse
      rw [ToolRegistry.has] at hfalse
      rw [hany] at hfalse
      exact absurd hfalse (by simp)
  · simp only [Bool.not_eq_true] at hany
    rw [if_neg (by simp [hany])]
    have hnotin : t.name ∉ ToolRegistry.toolNames m := by
      intro hmem
      obtain ⟨p, hp, hpk⟩ := List.mem_map.mp hmem
      have := List.any_eq_false.mp hany p hp
      simp [hpk] at this
    refine ⟨?_, ?_, ?_, ?_, ?_⟩
    · unfold ToolRegistry.get
      rw [List.find?_append, find?_eq_none_of_any_false m t.name (by simp [hany])]
      simp [List.find?]
    · intro name hne
      unfold ToolRegistry.get
      rw [List.find?_append]
      have hb : ((t.name : List Char) == name) = false := by
        rw [beq_eq_false_iff_ne]
        exact fun hh => hne hh.symm
      have h2 : List.find? (fun p => p.1 == name) [(t.name, t)] = none := by
        simp [List.find?, hb]
      rw [h2, Option.or_none]
    · intro hnd
      unfold ToolRegistry.toolNames
      rw [List.map_append]
      rw [List.nodup_append]
      exact ⟨hnd, List.nodup_singleton _, by
        intro a ha hb
        simp at hb
        subst hb
        exact hnotin ha⟩
    · intro htrue
      rw [ToolRegistry.has] at htrue
      rw [htrue] at hany
      exact absurd hany (by simp)
    · intro _
      simp [ToolRegistry.size]

/-- Witness for C10: registering `toolA2` over the present name `a`. -/
theorem toolRegistry_register_last_wins_witness :
    ToolRegistry.get exReg2 (str "a") = some toolA2
    ∧ ToolRegistry.size exReg2 = ToolRegistry.size exReg
    ∧ (ToolRegistry.toolNames exReg2).Nodup := by
  have h := toolRegistry_register_last_wins exReg toolA2
  exact ⟨h.1, h.2.2.2.1 rfl, h.2.2.1 (by decide)⟩

/-- C2.  Every command the deny list matches (the source tests the patterns
against the lowercased command) is answered with the safety-guard error and
the shell is never spawned; under workspace restriction, commands containing
`../` or `..\` are likewise blocked before execution. -/
theorem execTool_blocks_dangerous (restrict : Bool) (shell : List Char → ShellResult)
    (command : List Char) :
    (anyDenyPattern (jsLower command) = true →
      ExecTool.execute restrict shell command =
        (str "Error: Command blocked by safety guard (dangerous pattern detected)",
         false)
      ∧ jsIncludes (ExecTool.execute restrict shell command).1
          (str "Error: Command blocked by safety guard") = true)
    ∧ (restrict = true →
        (jsIncludes command (str "../") || jsIncludes command (str "..\\")) = true →
        (ExecTool.execute restrict shell command).2 = false
        ∧ jsIncludes (ExecTool.execute restrict shell command).1
            (str "Error: Command blocked by safety guard") = true) := by
  have hincl1 : jsIncludes
      (str "Error: Command blocked by safety guard (dangerous pattern detected)")
      (str "Error: Command blocked by safety guard") = true := by decide
  have hincl2 : jsIncludes
      (str "Error: Command blocked by safety guard (path traversal detected)")
      (str "Error: Command blocked by safety guard") = true := by decide
  constructor
  · intro h
    have hg : ExecTool.guardCommand restrict command =
        some (str "Error: Command blocked by safety guard (dangerous pattern detected)") := by
      unfold ExecTool.guardCommand
      rw [if_pos h]
    constructor
    · simp only [ExecTool.execute, hg]
    · simp only [ExecTool.execute, hg]
      exact hincl1
  · intro hr htrav
    by_cases hd : anyDenyPattern (jsLower command) = true
    · have hg : ExecTool.guardCommand restrict command =
          some (str "Error: Command blocked by safety guard (dangerous pattern detected)") := by
        unfold ExecTool.guardCommand
        rw [if_pos hd]
      constructor
      · simp only [ExecTool.execute, hg]
      · simp only [ExecTool.execute, hg]
        exact hincl1
    · have hg : ExecTool.guardCommand restrict command =
          some (str "Error: Command blocked by safety guard (path traversal detected)") := by
        unfold ExecTool.guardCommand
        rw [if_neg (by simp [hd]), if_pos (by simp [hr, htrav])]
      constructor
      · simp only [ExecTool.execute, hg]
      · simp only [ExecTool.execute, hg]
        exact hincl2

/-- Witness for C2: `rm -rf /` is blocked without a shell call, and a
traversal command is blocked under workspace restriction. -/
theorem execTool_blocks_dangerous_witness :
    ExecTool.execute false exShell (str "rm -rf /") =
      (str "Error: Command blocked by safety guard (dangerous pattern detected)", false)
    ∧ (ExecTool.execute true exShell (str "cat ../secret")).2 = false := by
  exact ⟨((execTool_blocks_dangerous false exShell (str "rm -rf /")).1 (by decide)).1,
         ((execTool_blocks_dangerous true exShell (str "cat ../secret")).2 rfl
           (by decide)).1⟩

/-- C4 counterexample.  With empty stdout, stderr `boom`, and exit code 1, the
exec output is exactly `STDERR:\nboom` and carries no `Exit code:` marker even
though the exit code is non-zero: line 92 of shell.ts suppresses the marker
whenever the output already contains `STDERR:`. -/
theorem execTool_exit_code_counterexample :
    processShellOutput [] (str "boom") 1 = str "STDERR:\nboom"
    ∧ jsIncludes (processShellOutput [] (str "boom") 1) (str "Exit code:") = false
    ∧ (1 : Int) ≠ 0 := by
  decide

/-- C4 (amended).  Stdout and stderr are joined with the `STDERR:` marker;
`Exit code: N` is appended exactly when the exit code is non-zero AND the
joined output does not already contain `STDERR:`; output longer than 10,000
characters is truncated at 10,000 with the `... (truncated)` marker. -/
theorem execTool_output_spec (stdout stderr : List Char) (code : Int) :
    (jsTrim stdout ≠ [] → jsTrim stderr ≠ [] →
      rawOutput stdout stderr code = stdout ++ (str "\nSTDERR:\n" ++ stderr))
    ∧ (jsTrim stdout = [] → jsTrim stderr ≠ [] →
      rawOutput stdout stderr code = str "STDERR:\n" ++ stderr)
    ∧ (jsTrim stderr ≠ [] →
      jsIncludes (rawOutput stdout stderr code) (str "STDERR:") = true)
    ∧ (code ≠ 0 → jsIncludes (rawOutput stdout stderr code) (str "STDERR:") = false →
      withExitCode (rawOutput stdout stderr code) code =
        rawOutput stdout stderr code ++ (str "\nExit code: " ++ intToStr code))
    ∧ (code ≠ 0 → jsIncludes (rawOutput stdout stderr code) (str "STDERR:") = true →
      withExitCode (rawOutput stdout stderr code) code = rawOutput stdout stderr code)
    ∧ (code = 0 → withExitCode (rawOutput stdout stderr code) code =
        rawOutput stdout stderr code)
    ∧ ((withExitCode (rawOutput stdout stderr code) code).length ≤ 10000 →
      processShellOutput stdout stderr code =
        withExitCode (rawOutput stdout stderr code) code)
    ∧ (10000 < (withExitCode (rawOutput stdout stderr code) code).length →
      processShellOutput stdout stderr code =
        (withExitCode (rawOutput stdout stderr code) code).take 10000 ++
          str "\n... (truncated)") := by
  have hS : isJsSpace 'S' = false := by decide
  have hmem : 'S' ∈ str "STDERR:\n" := by decide
  have hraw1 : jsTrim stdout ≠ [] → jsTrim stderr ≠ [] →
      rawOutput stdout stderr code = stdout ++ (str "\nSTDERR:\n" ++ stderr) := by
    intro h1 h2
    have hs : stdout ≠ [] := by
      intro he
      rw [he] at h1
      exact h1 rfl
    have e1 : rawO1 stdout = stdout := by
      unfold rawO1
      rw [if_pos h1]
    have e2 : rawO2 stdout stderr = stdout ++ str "\n" ++ str "STDERR:\n" ++ stderr := by
      unfold rawO2
      rw [e1, if_pos h2, if_pos hs]
    have e3 : jsTrim (rawO2 stdout stderr) ≠ [] := by
      rw [e2]
      exact jsTrim_ne_nil _ 'S' (by simp [List.mem_append, hmem]) hS
    unfold rawOutput
    rw [if_neg e3, e2]
    simp only [List.append_assoc]
    rfl
  have hraw2 : jsTrim stdout = [] → jsTrim stderr ≠ [] →
      rawOutput stdout stderr code = str "STDERR:\n" ++ stderr := by
    intro h1 h2
    have e1 : rawO1 stdout = [] := by
      unfold rawO1
      rw [if_neg (by simp [h1])]
    have e2 : rawO2 stdout stderr = str "STDERR:\n" ++ stderr := by
      unfold rawO2
      rw [e1, if_pos h2, if_neg (by simp)]
      simp
    have e3 : jsTrim (rawO2 stdout stderr) ≠ [] := by
      rw [e2]
      exact jsTrim_ne_nil _ 'S' (by simp [List.mem_append, hmem]) hS
    unfold rawOutput
    rw [if_neg e3, e2]
  refine ⟨hraw1, hraw2, ?_, ?_, ?_, ?_, ?_, ?_⟩
  · intro h2
    by_cases h1 : jsTrim stdout = []
    · rw [hraw2 h1 h2]
      exact (jsIncludes_iff_exists _ _).mpr ⟨[], str "\n" ++ stderr, rfl⟩
    · rw [hraw1 h1 h2]
      refine (jsIncludes_iff_exists _ _).mpr
        ⟨stdout ++ str "\n", str "\n" ++ stderr, ?_⟩
      simp only [List.append_assoc]
      rfl
  · intro hc hni
    unfold withExitCode
    rw [if_pos ⟨hc, by simp [hni]⟩]
    simp [List.append_assoc]
  · intro hc hi
    unfold withExitCode
    rw [if_neg (by simp [hi])]
  · intro hc
    unfold withExitCode
    rw [if_neg (by simp [hc])]
  · intro hlen
    unfold processShellOutput truncate10k
    rw [if_neg (by omega)]
  · intro hlen
    unfold processShellOutput truncate10k
    rw [if_pos hlen]

/-- Witness for C4 (amended): concrete streams exercising the join, the
exit-code rule, and the truncation branch. -/
theorem execTool_output_spec_witness :
    rawOutput (str "hi") (str "boom") 2 = str "hi" ++ (str "\nSTDERR:\n" ++ str "boom")
    ∧ withExitCode (rawOutput (str "hi") [] 2) 2 =
        rawOutput (str "hi") [] 2 ++ (str "\nExit code: " ++ intToStr 2)
    ∧ processShellOutput (str "hi") (str "boom") 2 =
        withExitCode (rawOutput (str "hi") (str "boom") 2) 2 := by
  refine ⟨(execTool_output_spec (str "hi") (str "boom") 2).1 (by decide) (by decide),
    (execTool_output_spec (str "hi") [] 2).2.2.2.1 (by decide) (by decide), ?_⟩
  exact (execTool_output_spec (str "hi") (str "boom") 2).2.2.2.2.2.2.1 (by decide)

/-- C3 counterexample.  With file content `a`, empty `old_text` and `new_text`
`X`, the file is rewritten to `Xa`: JS `includes("")` is true, `"a".split("")`
has one element so the computed count is 0, and `replace("", "X")` prepends.
The empty `old_text` does not occur exactly once, yet the file is modified. -/
theorem editFile_counterexample :
    (EditFileTool.execute (str "f") (some (str "a")) [] (str "X")).1 =
      some (str "Xa")
    ∧ some (str "Xa") ≠ some (str "a")
    ∧ jsSplitCount (str "a") [] = 0 := by
  decide

/-- C3 (amended).  For every file and every NON-EMPTY `old_text`: when the
non-overlapping occurrence count (what `content.split(old_text)` measures) is
zero the result is the error string and the content is untouched; when it
exceeds one the result is the warning string carrying the count (in
particular containing `appears {n} times`) and the content is untouched; the
content is modified only when the count is exactly one, replacing that single
occurrence with `new_text`. -/
theorem editFile_exact_match_spec (path content old new : List Char)
    (hold : old ≠ []) :
    (jsSplitCount content old = 0 →
      EditFileTool.execute path (some content) old new =
        (some content,
         str "Error: old_text not found in file. Make sure it matches exactly."))
    ∧ (∀ n, jsSplitCount content old = n → 1 < n →
      EditFileTool.execute path (some content) old new =
        (some content,
         str "Warning: old_text appears " ++ natToStr n ++
           str " times. Please provide more context to make it unique.")
      ∧ jsIncludes
          (str "Warning: old_text appears " ++ natToStr n ++
            str " times. Please provide more context to make it unique.")
          (str "appears " ++ natToStr n ++ str " times") = true)
    ∧ (jsSplitCount content old = 1 →
      EditFileTool.execute path (some content) old new =
        (some (jsReplaceFirst content old new),
         str "Successfully edited " ++ path)) := by
  have hcnt : jsSplitCount content old = countOcc old content := by
    unfold jsSplitCount
    rw [if_neg hold]
  refine ⟨?_, ?_, ?_⟩
  · intro h0
    have hni : jsIncludes content old = false := by
      cases hq : jsIncludes content old with
      | false => rfl
      | true =>
        have := (countOcc_pos_iff old hold content).mpr hq
        omega
    simp [EditFileTool.execute, hni]
  · intro n hn h1n
    have hpos : 0 < countOcc old content := by omega
    have hi : jsIncludes content old = true :=
      (countOcc_pos_iff old hold content).mp hpos
    constructor
    · simp [EditFileTool.execute, hi, hn, h1n]
    · refine (jsIncludes_iff_exists _ _).mpr
        ⟨str "Warning: old_text ",
         str ". Please provide more context to make it unique.", ?_⟩
      simp only [List.append_assoc]
      rfl
  · intro h1
    have hpos : 0 < countOcc old content := by omega
    have hi : jsIncludes content old = true :=
      (countOcc_pos_iff old hold content).mp hpos
    simp [EditFileTool.execute, hi, h1]

/-- Witness for C3 (amended): the three outcomes on concrete files. -/
theorem editFile_exact_match_spec_witness :
    EditFileTool.execute (str "f") (some (str "x foo y foo")) (str "foo") (str "b") =
      (some (str "x foo y foo"),
       str "Warning: old_text appears 2 times. Please provide more context to make it unique.")
    ∧ EditFileTool.execute (str "f") (some (str "ab")) (str "a") (str "Z") =
      (some (jsReplaceFirst (str "ab") (str "a") (str "Z")),
       str "Successfully edited f")
    ∧ EditFileTool.execute (str "f") (some (str "ab")) (str "q") (str "Z") =
      (some (str "ab"),
       str "Error: old_text not found in file. Make sure it matches exactly.") := by
  refine ⟨((editFile_exact_match_spec (str "f") (str "x foo y foo") (str "foo")
      (str "b") (by decide)).2.1 2 (by decide) (by decide)).1, ?_, ?_⟩
  · exact (editFile_exact_match_spec (str "f") (str "ab") (str "a") (str "Z")
      (by decide)).2.2 (by decide)
  · exact (editFile_exact_match_spec (str "f") (str "ab") (str "q") (str "Z")
      (by decide)).1 (by decide)

/-- C5 counterexample.  Writing the one-character content `é` (U+00E9) reports
`Successfully wrote 1 bytes` — `content.length` counts UTF-16 code units — but
`writeFileSync(..., "utf-8")` emits 2 bytes, so the message does not report
the byte count of the written content. -/
theorem writeFile_byte_count_counterexample :
    (WriteFileTool.execute ⟨[], []⟩ [str "f"] [eAcute]).2 =
      str "Successfully wrote 1 bytes to f"
    ∧ utf8ByteLength [eAcute] = 2
    ∧ (WriteFileTool.execute ⟨[], []⟩ [str "f"] [eAcute]).2 ≠
      str "Successfully wrote 2 bytes to f" := by
  decide

/-- C5 (amended).  `write_file` creates every missing parent directory of the
target path before writing, stores the content at the path, and on success
reports the UTF-16 length of the content (`content.length`, labelled as a
byte count; equal to the byte count exactly for contents whose characters are
single UTF-8 bytes). -/
theorem writeFile_spec (fs : FileSystem) (path : List (List Char))
    (content : List Char) :
    (∀ d, d <+: path.dropLast →
      d ∈ (WriteFileTool.execute fs path content).1.dirs)
    ∧ ((WriteFileTool.execute fs path content).1.files.find?
        (fun pr => pr.1 == path) = some (path, content))
    ∧ (WriteFileTool.execute fs path content).2 =
      str "Successfully wrote " ++ natToStr (jsStrLength content) ++
        str " bytes to " ++ joinSlash path := by
  refine ⟨?_, ?_, rfl⟩
  · intro d hd
    simp only [WriteFileTool.execute, mkdirRecursive, List.mem_append]
    exact Or.inl ((List.mem_inits d path.dropLast).mpr hd)
  · simp only [WriteFileTool.execute]
    exact List.find?_cons_of_pos _ (by simp)

/-- Witness for C5 (amended): writing `hi` under `/tmp/a/f` creates the
ancestor directories and stores the content. -/
theorem writeFile_spec_witness :
    [str "tmp"] ∈ (WriteFileTool.execute ⟨[], []⟩ [str "tmp", str "a", str "f"]
      (str "hi")).1.dirs
    ∧ [str "tmp", str "a"] ∈ (WriteFileTool.execute ⟨[], []⟩
      [str "tmp", str "a", str "f"] (str "hi")).1.dirs
    ∧ (WriteFileTool.execute ⟨[], []⟩ [str "tmp", str "a", str "f"]
      (str "hi")).1.files.find? (fun pr => pr.1 == [str "tmp", str "a", str "f"]) =
      some ([str "tmp", str "a", str "f"], str "hi") := by
  refine ⟨(writeFile_spec ⟨[], []⟩ [str "tmp", str "a", str "f"] (str "hi")).1
      [str "tmp"] (by decide), ?_, ?_⟩
  · exact (writeFile_spec ⟨[], []⟩ [str "tmp", str "a", str "f"] (str "hi")).1
      [str "tmp", str "a"] (by decide)
  · exact (writeFile_spec ⟨[], []⟩ [str "tmp", str "a", str "f"] (str "hi")).2.1

/-- C6.  `computeNextRun`: for an `at` schedule the result is `atMs` exactly
when it is strictly after `now` and null otherwise (a present `atMs > now` is
non-zero, so the JS truthiness test cannot intervene for epoch instants); for
an `every` schedule the result is `now + everyMs` exactly when `everyMs` is
positive; for a `cron` schedule the result is the external parser's next
matching instant, and null when the expression is absent, empty, or fails to
parse (`cronNext` returns `none`). -/
theorem computeNextRun_spec (aM eM : Option Nat) (ex tz : Option (List Char))
    (now : Nat) (cronNext : List Char → Option (List Char) → Nat → Option Nat) :
    computeNextRun ⟨ScheduleKind.atK, aM, eM, ex, tz⟩ now cronNext =
      (match aM with
       | some a => if now < a then some a else none
       | none => none)
    ∧ computeNextRun ⟨ScheduleKind.everyK, aM, eM, ex, tz⟩ now cronNext =
      (match eM with
       | some e => if 0 < e then some (now + e) else none
       | none => none)
    ∧ computeNextRun ⟨ScheduleKind.cronK, aM, eM, ex, tz⟩ now cronNext =
      (match ex with
       | some x => if x ≠ [] then cronNext x tz now else none
       | none => none) := by
  refine ⟨?_, ?_, rfl⟩
  · cases aM with
    | none => rfl
    | some a =>
      simp only [computeNextRun]
      by_cases h : now < a
      · rw [if_pos ⟨by omega, h⟩, if_pos h]
      · rw [if_neg (by omega), if_neg h]
  · cases eM with
    | none => rfl
    | some e =>
      simp only [computeNextRun]
      by_cases h : 0 < e
      · rw [if_pos ⟨by omega, h⟩, if_pos h]
      · rw [if_neg (by omega), if_neg h]

/-- C7.  After `executeJob` runs an `at`-schedule job: with `deleteAfterRun`
the job disappears from `listJobs(includeDisabled = true)` (it was listed
before its execution); otherwise the stored job keeps its id but is disabled
with `nextRunAtMs` null, and is still listed. -/
theorem cron_at_one_shot_spec (store : List CronJob) (j : CronJob)
    (outcome : Except (List Char) Unit) (startMs endMs : Nat)
    (cronNext : List Char → Option (List Char) → Nat → Option Nat)
    (hkind : j.schedule.kind = ScheduleKind.atK) :
    (j ∈ store → j ∈ CronService.listJobs store true)
    ∧ (j.deleteAfterRun = true →
        ∀ x ∈ CronService.listJobs
          (executeJobStore store j outcome startMs endMs cronNext) true,
          x.id ≠ j.id)
    ∧ (j.deleteAfterRun = false →
        ∀ x ∈ executeJobStore store j outcome startMs endMs cronNext,
          x.id = j.id → x.enabled = false ∧ x.state.nextRunAtMs = none)
    ∧ (j.deleteAfterRun = false → j ∈ store →
        ∃ x ∈ CronService.listJobs
          (executeJobStore store j outcome startMs endMs cronNext) true,
          x.id = j.id ∧ x.enabled = false ∧ x.state.nextRunAtMs = none) := by
  have hupd : (executeJobUpdate j outcome startMs endMs cronNext).id = j.id := by
    unfold executeJobUpdate
    rw [hkind]
    cases outcome <;> by_cases hd : j.deleteAfterRun <;> simp [hd]
  have hflags : j.deleteAfterRun = false →
      (executeJobUpdate j outcome startMs endMs cronNext).enabled = false
      ∧ (executeJobUpdate j outcome startMs endMs cronNext).state.nextRunAtMs
        = none := by
    intro hd
    unfold executeJobUpdate
    rw [hkind]
    cases outcome <;> simp [hd]
  refine ⟨?_, ?_, ?_, ?_⟩
  · intro hj
    unfold CronService.listJobs
    rw [if_pos rfl, mem_sortByNextRun]
    exact hj
  · intro hd x hx
    unfold CronService.listJobs at hx
    rw [if_pos rfl, mem_sortByNextRun] at hx
    unfold executeJobStore at hx
    rw [if_pos ⟨hkind, hd⟩] at hx
    have := List.of_mem_filter hx
    intro he
    simp [he] at this
  · intro hd x hx hid
    unfold executeJobStore at hx
    rw [if_neg (by simp [hd])] at hx
    obtain ⟨y, hy, hxy⟩ := List.mem_map.mp hx
    by_cases hyk : (y.id == j.id) = true
    · rw [if_pos hyk] at hxy
      rw [← hxy]
      exact hflags hd
    · rw [if_neg hyk] at hxy
      rw [← hxy] at hid
      exact absurd (by simp [hid]) hyk
  · intro hd hj
    refine ⟨executeJobUpdate j outcome startMs endMs cronNext, ?_,
      hupd, (hflags hd).1, (hflags hd).2⟩
    unfold CronService.listJobs
    rw [if_pos rfl, mem_sortByNextRun]
    unfold executeJobStore
    rw [if_neg (by simp [hd])]
    refine List.mem_map.mpr ⟨j, hj, ?_⟩
    rw [if_pos (beq_self_eq_true j.id)]

/-- Witness for C7: a two-job store; the `deleteAfterRun` job vanishes from
the full listing, the other is disabled in place. -/
theorem cron_at_one_shot_spec_witness :
    (∀ x ∈ CronService.listJobs
      (executeJobStore exStore exJobDel (Except.ok ()) 5 6 exCronNext) true,
      x.id ≠ exJobDel.id)
    ∧ (∃ x ∈ CronService.listJobs
        (executeJobStore exStore exJobKeep (Except.ok ()) 5 6 exCronNext) true,
        x.id = exJobKeep.id ∧ x.enabled = false ∧ x.state.nextRunAtMs = none) := by
  exact ⟨(cron_at_one_shot_spec exStore exJobDel (Except.ok ()) 5 6 exCronNext
      rfl).2.1 rfl,
    (cron_at_one_shot_spec exStore exJobKeep (Except.ok ()) 5 6 exCronNext
      rfl).2.2.2 rfl (by decide)⟩

/-- A checkbox line begins with `-` or `*`. -/
theorem checkboxStart_head (c1 : Char) (t1 : List Char)
    (h : checkboxStart (c1 :: t1) = true) : c1 = '-' ∨ c1 = '*' := by
  rcases t1 with _ | ⟨c2, _ | ⟨c3, _ | ⟨c4, _ | ⟨c5, t5⟩⟩⟩⟩ <;>
    simp [checkboxStart] at h
  tauto

/-- A line whose trimmed form is a checkbox makes the heartbeat loop report
actionable content. -/
theorem lineVerdict_of_checkbox (l : List Char)
    (h : checkboxStart (jsTrim l) = true) : lineVerdict l = false := by
  unfold lineVerdict
  rcases heq : jsTrim l with _ | ⟨c1, t1⟩
  · rw [heq] at h
    simp [checkboxStart] at h
  · rw [heq] at h
    have hc1 := checkboxStart_head c1 t1 h
    have h2 : ¬(['#'].isPrefixOf (c1 :: t1) = true) := by
      rcases hc1 with rfl | rfl <;> simp [List.isPrefixOf]
    have h3 : ¬((str "<!--").isPrefixOf (c1 :: t1) = true) := by
      rcases hc1 with rfl | rfl <;> simp [str, List.isPrefixOf]
    rw [if_neg (by simp), if_neg h2, if_neg h3, if_pos h]

/-- A non-blank line that is neither a header nor a comment makes the
heartbeat loop report actionable content. -/
theorem lineVerdict_of_actionable (l : List Char) (h1 : jsTrim l ≠ [])
    (h2 : ¬(['#'].isPrefixOf (jsTrim l) = true))
    (h3 : ¬((str "<!--").isPrefixOf (jsTrim l) = true)) :
    lineVerdict l = false := by
  unfold lineVerdict
  rw [if_neg h1, if_neg h2, if_neg h3]
  by_cases hcb : checkboxStart (jsTrim l) = true
  · rw [if_pos hcb]
  · rw [if_neg hcb, if_pos (by cases hq : jsTrim l with
      | nil => exact absurd hq h1
      | cons c t => simp)]

/-- A blank, header, or comment line is skipped by the heartbeat loop. -/
theorem lineVerdict_of_skippable (l : List Char)
    (h : ((jsTrim l == []) || ['#'].isPrefixOf (jsTrim l) ||
      (str "<!--").isPrefixOf (jsTrim l)) = true) : lineVerdict l = true := by
  unfold lineVerdict
  by_cases h1 : jsTrim l = []
  · rw [if_pos h1]
  · rw [if_neg h1]
    rcases Bool.or_eq_true_iff.mp h with h4 | h5
    · rcases Bool.or_eq_true_iff.mp h4 with h6 | h7
      · exact absurd (by simpa using h6) h1
      · rw [if_pos h7]
    · by_cases h8 : ['#'].isPrefixOf (jsTrim l) = true
      · rw [if_pos h8]
      · rw [if_neg h8, if_pos h5]

/-- C8.  A heartbeat tick skips the handler when every line of the file is
blank, a `#` header, or a `<!--` comment (such lines can never be checkbox
lines); it invokes the handler as soon as some line's trimmed form is a
checkbox (`- [ ]` / `- [x]` / `* [ ]` / `* [x]`), or any other non-blank,
non-header, non-comment line is present. -/
theorem heartbeat_tick_spec (content : List Char) (hasHandler : Bool) :
    ((splitOnChar '\n' content).all
        (fun l => (jsTrim l == []) || ['#'].isPrefixOf (jsTrim l) ||
          (str "<!--").isPrefixOf (jsTrim l)) = true →
      (splitOnChar '\n' content).all
        (fun l => !(checkboxStart (jsTrim l))) = true →
      HeartbeatService.tick (some content) hasHandler = false)
    ∧ ((splitOnChar '\n' content).any (fun l => checkboxStart (jsTrim l)) = true →
      HeartbeatService.tick (some content) true = true)
    ∧ ((splitOnChar '\n' content).any
        (fun l => !(jsTrim l == []) && !(['#'].isPrefixOf (jsTrim l)) &&
          !((str "<!--").isPrefixOf (jsTrim l))) = true →
      HeartbeatService.tick (some content) true = true) := by
  refine ⟨?_, ?_, ?_⟩
  · intro hall _
    have hemp : isHeartbeatEmpty (some content) = true := by
      simp only [isHeartbeatEmpty]
      by_cases hc : content = []
      · rw [if_pos hc]
      · rw [if_neg hc]
        rw [List.all_eq_true]
        intro l hl
        exact lineVerdict_of_skippable l (List.all_eq_true.mp hall l hl)
    simp [HeartbeatService.tick, hemp]
  · intro hany
    obtain ⟨l, hl, hcb⟩ := List.any_eq_true.mp hany
    by_cases hc : content = []
    · subst hc
      simp [splitOnChar] at hl
      rw [hl] at hcb
      simp [jsTrim, checkboxStart] at hcb
    · have hemp : isHeartbeatEmpty (some content) = false := by
        simp only [isHeartbeatEmpty]
        rw [if_neg hc, List.all_eq_false]
        exact ⟨l, hl, by simp [lineVerdict_of_checkbox l hcb]⟩
      simp [HeartbeatService.tick, hemp]
  · intro hany
    obtain ⟨l, hl, hline⟩ := List.any_eq_true.mp hany
    simp only [Bool.and_eq_true, Bool.not_eq_true'] at hline
    obtain ⟨⟨ht, hh⟩, hcm⟩ := hline
    by_cases hc : content = []
    · subst hc
      simp [splitOnChar] at hl
      rw [hl] at ht
      simp [jsTrim] at ht
    · have hemp : isHeartbeatEmpty (some content) = false := by
        simp only [isHeartbeatEmpty]
        rw [if_neg hc, List.all_eq_false]
        refine ⟨l, hl, ?_⟩
        rw [lineVerdict_of_actionable l (by simpa using ht)
          (by simp [hh]) (by simp [hcm])]
        simp
      simp [HeartbeatService.tick, hemp]

/-- Witness for C8: a header-only file skips the handler; adding a checkbox
or a plain task line invokes it. -/
theorem heartbeat_tick_spec_witness :
    HeartbeatService.tick (some (str "# Tasks\n\n")) true = false
    ∧ HeartbeatService.tick (some (str "# Tasks\n- [ ] X")) true = true
    ∧ HeartbeatService.tick (some (str "hello")) true = true := by
  refine ⟨(heartbeat_tick_spec (str "# Tasks\n\n") true).1 (by decide) (by decide),
    (heartbeat_tick_spec (str "# Tasks\n- [ ] X") true).2.1 (by decide),
    (heartbeat_tick_spec (str "hello") true).2.2 (by decide)⟩

/-- The sub-agent loop makes at most `fuel` further LLM calls. -/
theorem runSubagentLoop_calls_le (provider : List SubMsg → LLMResponse)
    (execTool : List Char → List Char → List Char) :
    ∀ fuel msgs calls,
      (runSubagentLoop provider execTool fuel msgs calls).2.2 ≤ calls + fuel := by
  intro fuel
  induction fuel with
  | zero =>
    intro msgs calls
    simp [runSubagentLoop]
  | succ f ih =>
    intro msgs calls
    rw [runSubagentLoop]
    by_cases h : hasToolCalls (provider msgs) = true
    · rw [if_pos h]
      have := ih (msgs ++ turnMessages (provider msgs) execTool) (calls + 1)
      omega
    · rw [if_neg h]
      simp

/-- The sub-agent loop only ever appends assistant and tool messages to the
transcript it was given: in particular, no reflection user message. -/
theorem runSubagentLoop_shape (provider : List SubMsg → LLMResponse)
    (execTool : List Char → List Char → List Char) :
    ∀ fuel msgs calls, ∃ rest,
      (runSubagentLoop provider execTool fuel msgs calls).1 = msgs ++ rest
      ∧ ∀ m ∈ rest, assistantOrToolMsg m = true := by
  intro fuel
  induction fuel with
  | zero =>
    intro msgs calls
    exact ⟨[], by simp [runSubagentLoop], fun m hm => absurd hm (List.not_mem_nil m)⟩
  | succ f ih =>
    intro msgs calls
    rw [runSubagentLoop]
    by_cases h : hasToolCalls (provider msgs) = true
    · rw [if_pos h]
      obtain ⟨rest, hr, hmem⟩ := ih (msgs ++ turnMessages (provider msgs) execTool)
        (calls + 1)
      refine ⟨turnMessages (provider msgs) execTool ++ rest, ?_, ?_⟩
      · rw [hr, List.append_assoc]
      · intro m hm
        rcases List.mem_append.mp hm with h1 | h2
        · unfold turnMessages at h1
          rcases List.mem_cons.mp h1 with rfl | hmap
          · rfl
          · obtain ⟨tc, _, rfl⟩ := List.mem_map.mp hmap
            rfl
        · exact hmem m h2
    · rw [if_neg h]
      exact ⟨[], by simp, fun m hm => absurd hm (List.not_mem_nil m)⟩

/-- C9 counterexample.  A provider that issues one tool call on the seed turn
and then stops: the sub-agent's final transcript is exactly seed, assistant,
tool — no user message `Reflect on the results and decide next steps.` is ever
appended, although a tool-call turn occurred. -/
theorem subagent_no_reflection_counterexample :
    hasToolCalls (exProvider [SubMsg.system (str "sys"), SubMsg.user (str "task")])
      = true
    ∧ (SubagentManager.runSubagent exProvider exExec (str "sys") (str "task")).1 =
      [SubMsg.system (str "sys"), SubMsg.user (str "task"),
       SubMsg.assistant [] [exToolCall],
       SubMsg.tool (str "t1") (str "read_file") (str "Hi")]
    ∧ SubMsg.user reflectText ∉
      (SubagentManager.runSubagent exProvider exExec (str "sys") (str "task")).1 := by
  decide

/-- C9 (amended).  The sub-agent background execution runs the tool loop with
an iteration ceiling of 15; on each turn whose response carries tool calls it
appends one assistant message carrying the tool calls and then one tool
message per call with the matching `tool_call_id`, and proceeds directly to
the next LLM call: unlike the main loop, NO reflection user message is
appended after the tool results. -/
theorem subagent_loop_spec (provider : List SubMsg → LLMResponse)
    (execTool : List Char → List Char → List Char) (systemPrompt task : List Char) :
    (SubagentManager.runSubagent provider execTool systemPrompt task).2.2 ≤ 15
    ∧ (∃ rest,
        (SubagentManager.runSubagent provider execTool systemPrompt task).1 =
          SubMsg.system systemPrompt :: SubMsg.user task :: rest
        ∧ ∀ m ∈ rest, assistantOrToolMsg m = true ∧ m ≠ SubMsg.user reflectText)
    ∧ (∀ fuel msgs calls, hasToolCalls (provider msgs) = true →
        runSubagentLoop provider execTool (fuel + 1) msgs calls =
          runSubagentLoop provider execTool fuel
            (msgs ++ (SubMsg.assistant ((provider msgs).content.getD [])
                (provider msgs).toolCalls ::
              (provider msgs).toolCalls.map
                (fun tc => SubMsg.tool tc.id tc.name (execTool tc.name tc.args))))
            (calls + 1)) := by
  refine ⟨?_, ?_, ?_⟩
  · have := runSubagentLoop_calls_le provider execTool 15
      [SubMsg.system systemPrompt, SubMsg.user task] 0
    simpa [SubagentManager.runSubagent] using this
  · obtain ⟨rest, hr, hmem⟩ := runSubagentLoop_shape provider execTool 15
      [SubMsg.system systemPrompt, SubMsg.user task] 0
    refine ⟨rest, by simpa [SubagentManager.runSubagent] using hr, ?_⟩
    intro m hm
    refine ⟨hmem m hm, ?_⟩
    intro he
    have := hmem m hm
    rw [he] at this
    simp [assistantOrToolMsg] at this
  · intro fuel msgs calls h
    rw [runSubagentLoop, if_pos h]
    rfl

/-- Witness for C9 (amended): the step equation and the call bound on the
concrete stub run. -/
theorem subagent_loop_spec_witness :
    (SubagentManager.runSubagent exProvider exExec (str "sys") (str "task")).2.2 ≤ 15
    ∧ runSubagentLoop exProvider exExec 15
        [SubMsg.system (str "sys"), SubMsg.user (str "task")] 0 =
      runSubagentLoop exProvider exExec 14
        ([SubMsg.system (str "sys"), SubMsg.user (str "task")] ++
          (SubMsg.assistant
              ((exProvider [SubMsg.system (str "sys"), SubMsg.user (str "task")]).content.getD [])
              (exProvider [SubMsg.system (str "sys"), SubMsg.user (str "task")]).toolCalls ::
            (exProvider [SubMsg.system (str "sys"), SubMsg.user (str "task")]).toolCalls.map
              (fun tc => SubMsg.tool tc.id tc.name (exExec tc.name tc.args)))) 1 := by
  refine ⟨(subagent_loop_spec exProvider exExec (str "sys") (str "task")).1, ?_⟩
  exact (subagent_loop_spec exProvider exExec (str "sys") (str "task")).2.2 14
    [SubMsg.system (str "sys"), SubMsg.user (str "task")] 0 (by decide)
